import Mathlib

set_option maxRecDepth 8000

/-!
Shallow embedding of the tamper-evident audit-trail subsystem of AuditLens:
the `AuditService` class (createAuditEntry, calculateHash, generateSignature,
verifyChainIntegrity, generateComplianceReport, countByField) and the
`AuditEntry` mongoose model (immutability hooks, unique hash index).

Modelling conventions:
  * SHA-256 and HMAC-SHA-256 are abstract digest functions, passed as explicit
    parameters `sha : String → String` and `hmac : String → String → String`
    (secret first); all structural properties are proved for arbitrary digests.
  * `Date` timestamps are natural numbers; `new Date()` at entry creation is
    modelled by a timestamp strictly larger than every stored timestamp
    (a monotone wall clock).
  * Mongo ObjectIds are strings; the generated `_id` is a natural number
    supplied by the caller of the step function.
  * The Mixed `details` payload is carried as its JSON serialization.
  * JS `undefined` optional fields are `Option`; `JSON.stringify` skips them.
-/

namespace AuditLens

/-- JSON string escaping (backslash and double quote), as in `JSON.stringify`. -/
def jsonEscape (s : String) : String :=
  String.mk (s.data.foldr (fun c acc =>
    (if c = '\\' then ['\\', '\\'] else if c = '"' then ['\\', '"'] else [c]) ++ acc) [])

/-- A JSON string literal. -/
def jstr (s : String) : String := "\"" ++ jsonEscape s ++ "\""

/-- Serialization of a `Date` value inside `JSON.stringify` output: an
(injective) quoted rendering of the instant. -/
def jsonDate (t : Nat) : String := "\"" ++ toString t ++ "\""

/-- JSON boolean. -/
def jsonBool (b : Bool) : String := if b then "true" else "false"

/-- JSON array of strings. -/
def jsonArr (xs : List String) : String :=
  "[" ++ String.intercalate "," (xs.map jstr) ++ "]"

/-- The `entryData` object literal built inside `AuditService.createAuditEntry`:
every persisted content field of an audit entry except `hash` and `signature`,
in the declaration order of the source. -/
structure EntryData where
  timestamp : Nat
  action : String
  userId : String
  username : String
  resourceType : String
  resourceId : String
  details : String
  ipAddress : Option String
  userAgent : Option String
  sensitivity : String
  complianceTags : List String
  previousHash : String
  success : Bool
  errorMessage : Option String
  deriving DecidableEq, Repr, Inhabited

/-- A persisted `AuditEntry` document: the content fields plus the Mongo `_id`
and the derived `hash` and `signature` fields. -/
structure AuditEntry where
  id : Nat
  data : EntryData
  hash : String
  signature : String
  deriving DecidableEq, Repr, Inhabited

/-- The string `JSON.stringify` produces inside `AuditService.calculateHash`:
exactly the fields `timestamp, action, userId, username, resourceType,
resourceId, details, previousHash, success`, in this order (the `details`
serialization is spliced in as an object, not quoted). -/
def hashInput (d : EntryData) : String :=
  "\x7b\"timestamp\":" ++ jsonDate d.timestamp ++
  ",\"action\":" ++ jstr d.action ++
  ",\"userId\":" ++ jstr d.userId ++
  ",\"username\":" ++ jstr d.username ++
  ",\"resourceType\":" ++ jstr d.resourceType ++
  ",\"resourceId\":" ++ jstr d.resourceId ++
  ",\"details\":" ++ d.details ++
  ",\"previousHash\":" ++ jstr d.previousHash ++
  ",\"success\":" ++ jsonBool d.success ++ "\x7d"

/-- `AuditService.calculateHash`: SHA-256 (abstract digest `sha`) of the
stable serialization of the nine bound fields. -/
def calculateHash (sha : String → String) (d : EntryData) : String :=
  sha (hashInput d)

/-- `JSON.stringify(entryData)` inside `AuditService.generateSignature`:
all fourteen `entryData` fields in declaration order, with `undefined`
(`none`) optional fields omitted, as `JSON.stringify` does. -/
def serializeEntryData (d : EntryData) : String :=
  let fields : List (Option String) := [
    some ("\"timestamp\":" ++ jsonDate d.timestamp),
    some ("\"action\":" ++ jstr d.action),
    some ("\"userId\":" ++ jstr d.userId),
    some ("\"username\":" ++ jstr d.username),
    some ("\"resourceType\":" ++ jstr d.resourceType),
    some ("\"resourceId\":" ++ jstr d.resourceId),
    some ("\"details\":" ++ d.details),
    (d.ipAddress.map (fun s => "\"ipAddress\":" ++ jstr s)),
    (d.userAgent.map (fun s => "\"userAgent\":" ++ jstr s)),
    some ("\"sensitivity\":" ++ jstr d.sensitivity),
    some ("\"complianceTags\":" ++ jsonArr d.complianceTags),
    some ("\"previousHash\":" ++ jstr d.previousHash),
    some ("\"success\":" ++ jsonBool d.success),
    (d.errorMessage.map (fun s => "\"errorMessage\":" ++ jstr s))]
  "\x7b" ++ String.intercalate "," (fields.filterMap id) ++ "\x7d"

/-- `process.env.AUDIT_SECRET || 'change_this_secret_in_production'`. -/
def auditSecret (env : Option String) : String :=
  env.getD "change_this_secret_in_production"

/-- `AuditService.generateSignature`: HMAC-SHA-256 (abstract keyed digest
`hmac`, secret first) over `JSON.stringify` of the `entryData` object —
which contains neither `hash` nor `signature`. -/
def generateSignature (hmac : String → String → String) (env : Option String)
    (d : EntryData) : String :=
  hmac (auditSecret env) (serializeEntryData d)

/-- The genesis sentinel `'0'.repeat(64)` from the `AuditService` constructor. -/
def genesisHash : String := String.mk (List.replicate 64 '0')

/-- Failures surfaced by the ledger store on `AuditEntry.create`. -/
inductive AuditError where
  | duplicateHash
  | storageError
  deriving DecidableEq, Repr

/-- `AuditEntry.create({...entryData, hash, signature})` against the store:
the unique index on `hash` rejects a colliding append with a duplicate-key
error; a transient storage fault (injected via `fault`) surfaces as a
storage error; otherwise the document is appended. -/
def appendEntry (store : List AuditEntry) (e : AuditEntry) (fault : Bool) :
    Except AuditError (List AuditEntry) :=
  if fault then .error .storageError
  else if store.any (fun x => x.hash == e.hash) then .error .duplicateHash
  else .ok (store ++ [e])

/-- `AuditEntry.findOne().sort({ timestamp: -1 })`: the stored entry with the
greatest timestamp (the first such one on ties). -/
def lastByTimestamp : List AuditEntry → Option AuditEntry
  | [] => none
  | e :: rest =>
    match lastByTimestamp rest with
    | none => some e
    | some m => some (if e.data.timestamp ≥ m.data.timestamp then e else m)

/-- The caller-supplied arguments of `createAuditEntry` (`params`); `Option`
marks fields a caller may leave `undefined`. -/
structure AuditParams where
  action : String
  userId : String
  username : String
  resourceType : String
  resourceId : String
  details : Option String
  ipAddress : Option String
  userAgent : Option String
  sensitivity : Option String
  complianceTags : Option (List String)
  success : Option Bool
  errorMessage : Option String
  deriving DecidableEq, Repr, Inhabited

/-- State of the `AuditService` singleton plus its backing store: the list of
persisted entries (in append order) and the in-memory `this.previousHash`. -/
structure ServiceState where
  entries : List AuditEntry
  prevHashCache : String
  deriving DecidableEq, Repr, Inhabited

/-- The fresh service over an empty store: `this.previousHash = '0'.repeat(64)`. -/
def initialState : ServiceState := ⟨[], genesisHash⟩

/-- The `entryData` object built by `createAuditEntry` from `params`, the
creation instant `t` and the previous hash: `details || {}` defaults to the
empty object, `sensitivity || 'INTERNAL'`, `complianceTags || []`, and
`success !== undefined ? success : true`. -/
def buildEntryData (p : AuditParams) (t : Nat) (prevHash : String) : EntryData :=
  { timestamp := t
    action := p.action
    userId := p.userId
    username := p.username
    resourceType := p.resourceType
    resourceId := p.resourceId
    details := p.details.getD "\x7b\x7d"
    ipAddress := p.ipAddress
    userAgent := p.userAgent
    sensitivity := p.sensitivity.getD "INTERNAL"
    complianceTags := p.complianceTags.getD []
    previousHash := prevHash
    success := p.success.getD true
    errorMessage := p.errorMessage }

/-- `AuditService.createAuditEntry`: read the chain tail (falling back to the
in-memory `this.previousHash` when the store is empty), build `entryData`,
compute `hash` and `signature`, append; errors from the append are rethrown
(the catch block logs and rethrows). `t` is the `new Date()` instant, `nid`
the Mongo-assigned `_id`, `fault` injects a transient storage failure. -/
def createAuditEntry (sha : String → String) (hmac : String → String → String)
    (env : Option String) (st : ServiceState) (t : Nat) (nid : Nat)
    (fault : Bool) (p : AuditParams) :
    Except AuditError (ServiceState × AuditEntry) :=
  let prevHash :=
    match lastByTimestamp st.entries with
    | some lastEntry => lastEntry.hash
    | none => st.prevHashCache
  let ed := buildEntryData p t prevHash
  let hash := calculateHash sha ed
  let signature := generateSignature hmac env ed
  let e : AuditEntry := { id := nid, data := ed, hash := hash, signature := signature }
  match appendEntry st.entries e fault with
  | .error err => .error err
  | .ok store => .ok (⟨store, hash⟩, e)

/-- Ledger states reachable from the fresh service by successful
`createAuditEntry` calls, each at an instant later than every stored entry. -/
inductive Reachable (sha : String → String) (hmac : String → String → String)
    (env : Option String) : ServiceState → Prop where
  | init : Reachable sha hmac env initialState
  | step {st st' : ServiceState} {t nid : Nat} {p : AuditParams} {e : AuditEntry} :
      Reachable sha hmac env st →
      (∀ x ∈ st.entries, x.data.timestamp < t) →
      createAuditEntry sha hmac env st t nid false p = .ok (st', e) →
      Reachable sha hmac env st'

/-- The structured findings pushed into `errors` by `verifyChainIntegrity`:
a hash mismatch (`entryId`, `expected` stored hash, `actual` recomputed hash)
or a broken chain link (`entryId`, `previousEntryId`, `expectedPreviousHash`,
`actualPreviousHash`). -/
inductive IntegrityError where
  | hashMismatch (entryId : Nat) (expected : String) (actual : String)
  | chainBroken (entryId : Nat) (previousEntryId : Nat)
      (expectedPreviousHash : String) (actualPreviousHash : String)
  deriving DecidableEq, Repr

/-- The value returned by `verifyChainIntegrity`. -/
structure VerifyResult where
  valid : Bool
  totalEntries : Nat
  errors : List IntegrityError
  deriving DecidableEq, Repr

/-- The optional `{ $gte: startDate, $lte: endDate }` filter of
`verifyChainIntegrity`'s query. -/
def inRange (lo hi : Option Nat) (t : Nat) : Bool :=
  (match lo with | some a => a ≤ t | none => true) &&
  (match hi with | some b => t ≤ b | none => true)

/-- `AuditEntry.find(query)` for a timestamp-range query. -/
def filterRange (store : List AuditEntry) (lo hi : Option Nat) : List AuditEntry :=
  store.filter (fun e => inRange lo hi e.data.timestamp)

/-- `.sort({ timestamp: 1 })`: the stored entries ordered ascending by
timestamp. -/
def sortByTimestamp (es : List AuditEntry) : List AuditEntry :=
  List.insertionSort (fun a b => a.data.timestamp ≤ b.data.timestamp) es

/-- The body of one iteration of the `verifyChainIntegrity` loop: recompute
the content hash of `e` and compare to the stored one, then (when a previous
entry exists) compare `e.previousHash` to the previous entry's stored hash. -/
def checkEntry (sha : String → String) (prev : Option AuditEntry)
    (e : AuditEntry) : List IntegrityError :=
  (if calculateHash sha e.data ≠ e.hash then
    [.hashMismatch e.id e.hash (calculateHash sha e.data)] else []) ++
  (match prev with
   | some q =>
     if e.data.previousHash ≠ q.hash then
       [.chainBroken e.id q.id q.hash e.data.previousHash] else []
   | none => [])

/-- The `for` loop of `verifyChainIntegrity`, carrying the previous entry. -/
def verifyLoop (sha : String → String) :
    Option AuditEntry → List AuditEntry → List IntegrityError
  | _, [] => []
  | prev, e :: rest => checkEntry sha prev e ++ verifyLoop sha (some e) rest

/-- `AuditService.verifyChainIntegrity`: fetch the entries in the requested
range ordered ascending by timestamp, run the per-entry checks, and return
`valid = (errors.length === 0)`, the fetched count and the error list. -/
def verifyChainIntegrity (sha : String → String) (store : List AuditEntry)
    (startDate endDate : Option Nat) : VerifyResult :=
  let entries := sortByTimestamp (filterRange store startDate endDate)
  let errors := verifyLoop sha none entries
  { valid := errors.length == 0, totalEntries := entries.length, errors := errors }

/-- JS number values arising in the report statistics (IEEE special values
made explicit). -/
inductive JsNum where
  | num (q : ℚ)
  | nan
  | posInf
  | negInf
  deriving DecidableEq, Repr

/-- JS division: `0/0` is `NaN`, `x/0` is a signed infinity for `x ≠ 0`. -/
def jsDiv : JsNum → JsNum → JsNum
  | .nan, _ => .nan
  | _, .nan => .nan
  | .num a, .num b =>
    if b = 0 then (if a = 0 then .nan else if 0 < a then .posInf else .negInf)
    else .num (a / b)
  | .posInf, .posInf => .nan
  | .posInf, .negInf => .nan
  | .negInf, .posInf => .nan
  | .negInf, .negInf => .nan
  | .posInf, .num b => if b < 0 then .negInf else .posInf
  | .negInf, .num b => if b < 0 then .posInf else .negInf
  | .num _, .posInf => .num 0
  | .num _, .negInf => .num 0

/-- JS multiplication (on the cases the report uses). -/
def jsMul : JsNum → JsNum → JsNum
  | .nan, _ => .nan
  | _, .nan => .nan
  | .num a, .num b => .num (a * b)
  | .posInf, .num b => if b = 0 then .nan else if 0 < b then .posInf else .negInf
  | .num a, .posInf => if a = 0 then .nan else if 0 < a then .posInf else .negInf
  | .negInf, .num b => if b = 0 then .nan else if 0 < b then .negInf else .posInf
  | .num a, .negInf => if a = 0 then .nan else if 0 < a then .negInf else .posInf
  | .posInf, .posInf => .posInf
  | .negInf, .negInf => .posInf
  | .posInf, .negInf => .negInf
  | .negInf, .posInf => .negInf

/-- Decimal rendering of `toFixed(2)` for an ordinary number. -/
def renderFixed2 (q : ℚ) : String :=
  let n : Int := ⌊q * 100 + 1 / 2⌋
  let m := n.natAbs
  (if n < 0 then "-" else "") ++ toString (m / 100) ++ "." ++
    (if m % 100 < 10 then "0" else "") ++ toString (m % 100)

/-- JS `toFixed(2)`: `"NaN"` for `NaN`, `"Infinity"` for infinities. -/
def jsToFixed2 : JsNum → String
  | .nan => "NaN"
  | .posInf => "Infinity"
  | .negInf => "-Infinity"
  | .num q => renderFixed2 q

/-- Insertion-ordered counter bump used by `countByField`. -/
def bumpCount : List (String × Nat) → String → List (String × Nat)
  | [], k => [(k, 1)]
  | (k', n) :: rest, k =>
    if k' = k then (k', n + 1) :: rest else (k', n) :: bumpCount rest k

/-- `String(entry[field] || 'unknown')` for a string-valued field: the empty
string is falsy in JS. -/
def orUnknown (s : String) : String := if s = "" then "unknown" else s

/-- `AuditService.countByField`: occurrence counts keyed by field value, in
first-seen order (a plain JS object used as a counter). -/
def countByField (entries : List AuditEntry) (f : AuditEntry → String) :
    List (String × Nat) :=
  entries.foldl (fun acc e => bumpCount acc (orUnknown (f e))) []

/-- The `statistics` object of a compliance report. -/
structure ComplianceStatistics where
  totalEntries : Nat
  uniqueUsers : Nat
  actionBreakdown : List (String × Nat)
  sensitivityBreakdown : List (String × Nat)
  failureCount : Nat
  successRate : String
  deriving DecidableEq, Repr

/-- One element of the `violations` list of a compliance report. -/
structure Violation where
  timestamp : Nat
  user : String
  action : String
  resource : String
  error : Option String
  deriving DecidableEq, Repr

/-- The value returned by `generateComplianceReport`. -/
structure ComplianceReport where
  reportId : String
  periodStart : Nat
  periodEnd : Nat
  standards : List String
  statistics : ComplianceStatistics
  violations : List Violation
  chainIntegrity : VerifyResult
  deriving DecidableEq, Repr

/-- The query filter of `generateComplianceReport`: timestamp within
`[startDate, endDate]`, and — when a non-empty standards list is given —
`complianceTags` intersecting it (`$in`). -/
def reportFilter (store : List AuditEntry) (startDate endDate : Nat)
    (standards : Option (List String)) : List AuditEntry :=
  store.filter (fun e =>
    (startDate ≤ e.data.timestamp && e.data.timestamp ≤ endDate) &&
    (match standards with
     | some ts =>
       if ts.length > 0 then ts.any (fun tag => e.data.complianceTags.contains tag)
       else true
     | none => true))

/-- `AuditService.generateComplianceReport`: aggregate statistics, the
violations list and an embedded chain-integrity verification over the same
period. `reportId` (random bytes in the source) is supplied by the caller. -/
def generateComplianceReport (sha : String → String) (store : List AuditEntry)
    (startDate endDate : Nat) (standards : Option (List String))
    (reportId : String) : ComplianceReport :=
  let entries := reportFilter store startDate endDate standards
  let successCount := (entries.filter (fun e => e.data.success)).length
  let statistics : ComplianceStatistics :=
    { totalEntries := entries.length
      uniqueUsers := (entries.map (fun e => e.data.userId)).dedup.length
      actionBreakdown := countByField entries (fun e => e.data.action)
      sensitivityBreakdown := countByField entries (fun e => e.data.sensitivity)
      failureCount := (entries.filter (fun e => !e.data.success)).length
      successRate :=
        jsToFixed2 (jsMul (jsDiv (.num successCount) (.num entries.length))
          (.num 100)) ++ "%" }
  let violations :=
    (entries.filter (fun e => !e.data.success || e.data.action == "ACCESS_DENIED")).map
      (fun e =>
        { timestamp := e.data.timestamp
          user := e.data.username
          action := e.data.action
          resource := e.data.resourceType ++ ":" ++ e.data.resourceId
          error := e.data.errorMessage : Violation })
  { reportId := reportId
    periodStart := startDate
    periodEnd := endDate
    standards := standards.getD []
    statistics := statistics
    violations := violations
    chainIntegrity := verifyChainIntegrity sha store (some startDate) (some endDate) }

/-- The mongoose `save` path of the `AuditEntry` model: the pre-save hook
rejects any document that is not new (`Audit entries cannot be modified`);
a new document is subject to the unique `hash` index. -/
def saveAuditEntry (store : List AuditEntry) (e : AuditEntry) (isNew : Bool) :
    Except String (List AuditEntry) :=
  if isNew = false then .error "Audit entries cannot be modified"
  else if store.any (fun x => x.hash == e.hash) then .error "duplicate key"
  else .ok (store ++ [e])

/-- The mongoose `deleteOne` path: the pre-deleteOne hook fails
unconditionally. -/
def deleteOneAuditEntry (_store : List AuditEntry) (_q : AuditEntry → Bool) :
    Except String (List AuditEntry) :=
  .error "Audit entries cannot be deleted"

/-- The mongoose `deleteMany` path: the pre-deleteMany hook fails
unconditionally. -/
def deleteManyAuditEntry (_store : List AuditEntry) (_q : AuditEntry → Bool) :
    Except String (List AuditEntry) :=
  .error "Audit entries cannot be deleted"

/-- The invariant maintained by successful `createAuditEntry` calls: the
stored entries (in append order) are hash-chained, start at the genesis
sentinel, have strictly increasing timestamps and pairwise distinct hashes,
and the in-memory `this.previousHash` is the genesis sentinel while the
store is empty. -/
def Inv (st : ServiceState) : Prop :=
  st.entries.Chain' (fun a b => b.data.previousHash = a.hash) ∧
  (∀ e, st.entries.head? = some e → e.data.previousHash = genesisHash) ∧
  st.entries.Pairwise (fun a b => a.data.timestamp < b.data.timestamp) ∧
  (st.entries.map (fun e => e.hash)).Nodup ∧
  (st.entries = [] → st.prevHashCache = genesisHash)

theorem lastByTimestamp_eq_getLast? {es : List AuditEntry}
    (h : es.Pairwise (fun a b => a.data.timestamp < b.data.timestamp)) :
    lastByTimestamp es = es.getLast? := by
  induction es with
  | nil => rfl
  | cons e rest ih =>
    rcases List.pairwise_cons.mp h with ⟨hlt, hrest⟩
    have hr := ih hrest
    cases rest with
    | nil => simp [lastByTimestamp]
    | cons f rs =>
      have hne : f :: rs ≠ ([] : List AuditEntry) := by simp
      obtain ⟨m, hm⟩ : ∃ m, (f :: rs).getLast? = some m := by
        rw [List.getLast?_eq_getLast _ hne]; exact ⟨_, rfl⟩
      have hmem : m ∈ f :: rs := List.mem_of_mem_getLast? (by rw [hm]; rfl)
      have hlt' : e.data.timestamp < m.data.timestamp := hlt m hmem
      show (match lastByTimestamp (f :: rs) with
            | none => some e
            | some m => some (if e.data.timestamp ≥ m.data.timestamp then e else m)) =
          (e :: f :: rs).getLast?
      rw [hr, hm, List.getLast?_cons_cons, hm]
      simp only [Option.some.injEq]
      rw [if_neg (by omega)]

/-- Decomposition of a successful `createAuditEntry` call. -/
theorem createAuditEntry_ok {sha : String → String}
    {hmac : String → String → String} {env : Option String}
    {st st' : ServiceState} {t nid : Nat} {fault : Bool} {p : AuditParams}
    {e : AuditEntry}
    (h : createAuditEntry sha hmac env st t nid fault p = .ok (st', e)) :
    fault = false ∧
    (∀ x ∈ st.entries, x.hash ≠ e.hash) ∧
    st' = ⟨st.entries ++ [e], e.hash⟩ ∧
    e.data = buildEntryData p t
      (match lastByTimestamp st.entries with
       | some lastEntry => lastEntry.hash
       | none => st.prevHashCache) ∧
    e.hash = calculateHash sha e.data ∧
    e.signature = generateSignature hmac env e.data ∧
    e.id = nid := by
  unfold createAuditEntry appendEntry at h
  cases fault with
  | true => simp at h
  | false =>
    simp only [Bool.false_eq_true, if_false] at h
    by_cases hc : st.entries.any (fun x =>
        x.hash == calculateHash sha (buildEntryData p t
          (match lastByTimestamp st.entries with
           | some lastEntry => lastEntry.hash
           | none => st.prevHashCache))) = true
    · rw [if_pos hc] at h; simp at h
    · rw [if_neg hc] at h
      simp only [Except.ok.injEq, Prod.mk.injEq] at h
      obtain ⟨h1, h2⟩ := h
      subst h2
      refine ⟨rfl, ?_, h1.symm, rfl, rfl, rfl, rfl⟩
      intro x hx hxe
      exact hc (List.any_eq_true.mpr ⟨x, hx, by simp [hxe]⟩)

theorem reachable_inv {sha : String → String} {hmac : String → String → String}
    {env : Option String} {st : ServiceState}
    (h : Reachable sha hmac env st) : Inv st := by
  induction h with
  | init =>
    refine ⟨by simp [initialState], ?_, by simp [initialState], by simp [initialState],
      fun _ => rfl⟩
    intro e he
    simp [initialState] at he
  | step hr ht heq ih =>
    obtain ⟨-, hfresh, hst', hdata, hhash, -, -⟩ := createAuditEntry_ok heq
    obtain ⟨ichain, ihead, isort, inodup, iempty⟩ := ih
    subst hst'
    rename_i st t nid p e
    refine ⟨?_, ?_, ?_, ?_, by simp⟩
    · rw [List.chain'_append]
      refine ⟨ichain, List.chain'_singleton _, ?_⟩
      intro x hx y hy
      rw [Option.mem_def] at hx hy
      simp only [List.head?_cons, Option.some.injEq] at hy
      subst hy
      rw [hdata]
      have hlast : lastByTimestamp st.entries = st.entries.getLast? :=
        lastByTimestamp_eq_getLast? isort
      rw [hlast, hx]
      rfl
    · intro f hf
      rw [List.head?_append] at hf
      cases hent : st.entries with
      | nil =>
        rw [hent] at hf
        simp only [List.head?_nil, Option.none_or, List.head?_cons,
          Option.some.injEq] at hf
        subst hf
        rw [hdata]
        have hnone : lastByTimestamp st.entries = none := by rw [hent]; rfl
        rw [hnone]
        simp [buildEntryData, iempty hent]
      | cons a rest =>
        rw [hent] at hf ihead
        simp only [List.head?_cons, Option.or] at hf
        exact ihead f hf
    · rw [List.pairwise_append]
      refine ⟨isort, List.pairwise_singleton _ _, ?_⟩
      intro a ha b hb
      simp only [List.mem_singleton] at hb
      subst hb
      have := ht a ha
      rw [hdata]
      simpa [buildEntryData] using this
    · rw [List.map_append, List.nodup_append]
      refine ⟨inodup, List.nodup_singleton _, ?_⟩
      intro a ha hb
      simp only [List.map_cons, List.map_nil, List.mem_singleton] at hb
      subst hb
      obtain ⟨x, hx, hxa⟩ := List.mem_map.mp ha
      exact hfresh x hx hxa

/-- Chain linkage of a list of entries: consecutive entries are linked by
`previousHash = hash`, and the first entry carries the genesis sentinel. -/
def ChainLinkageProp (es : List AuditEntry) : Prop :=
  (∀ i (hi : i + 1 < es.length),
    (es.get ⟨i + 1, hi⟩).data.previousHash =
      (es.get ⟨i, Nat.lt_of_succ_lt hi⟩).hash) ∧
  (∀ e, es.head? = some e → e.data.previousHash = genesisHash)

/-- C1. For every ledger state reachable by successful `createAuditEntry`
calls, sorting the stored entries ascending by timestamp yields a list in
which each entry's `previousHash` equals the previous entry's `hash` and the
first entry's `previousHash` is the genesis sentinel `'0'.repeat(64)`. -/
theorem audit_chain_linkage {sha : String → String}
    {hmac : String → String → String} {env : Option String}
    {st : ServiceState} (h : Reachable sha hmac env st) :
    ChainLinkageProp (sortByTimestamp st.entries) := by
  obtain ⟨ichain, ihead, isort, -, -⟩ := reachable_inv h
  have hsorted : List.Sorted (fun a b : AuditEntry =>
      a.data.timestamp ≤ b.data.timestamp) st.entries :=
    isort.imp (fun hab => Nat.le_of_lt hab)
  have heq : sortByTimestamp st.entries = st.entries :=
    hsorted.insertionSort_eq
  rw [heq]
  constructor
  · intro i hi
    have := List.chain'_iff_get.mp ichain i (by omega)
    exact this
  · exact ihead

/-- A concrete stand-in digest used to instantiate the abstract SHA-256 in
witnesses and counterexamples. -/
def sha0 : String → String := fun s => "#" ++ s

/-- A concrete stand-in keyed MAC used to instantiate the abstract
HMAC-SHA-256 in witnesses and counterexamples. -/
def hmac0 : String → String → String := fun k m => "[" ++ k ++ "|" ++ m ++ "]"

/-- Concrete call arguments for a first audited action. -/
def params1 : AuditParams :=
  { action := "LOGIN", userId := "u1", username := "alice"
    resourceType := "Session", resourceId := "s1"
    details := none, ipAddress := none, userAgent := none
    sensitivity := none, complianceTags := none
    success := none, errorMessage := none }

/-- Concrete call arguments for a second audited action. -/
def params2 : AuditParams :=
  { action := "APPROVE", userId := "u1", username := "alice"
    resourceType := "Invoice", resourceId := "INV-1"
    details := none, ipAddress := none, userAgent := none
    sensitivity := none, complianceTags := none
    success := none, errorMessage := none }

/-- The first concrete `createAuditEntry` call, from the fresh service. -/
def run1 : Except AuditError (ServiceState × AuditEntry) :=
  createAuditEntry sha0 hmac0 none initialState 1 1 false params1

/-- The state after the first concrete call. -/
def state1 : ServiceState :=
  match run1 with | .ok (s, _) => s | .error _ => initialState

/-- The entry returned by the first concrete call. -/
def entry1 : AuditEntry :=
  match run1 with | .ok (_, e) => e | .error _ => default

theorem run1_ok : run1 = .ok (state1, entry1) := rfl

/-- The second concrete `createAuditEntry` call. -/
def run2 : Except AuditError (ServiceState × AuditEntry) :=
  createAuditEntry sha0 hmac0 none state1 2 2 false params2

/-- The state after the second concrete call. -/
def state2 : ServiceState :=
  match run2 with | .ok (s, _) => s | .error _ => state1

/-- The entry returned by the second concrete call. -/
def entry2 : AuditEntry :=
  match run2 with | .ok (_, e) => e | .error _ => default

theorem run2_ok : run2 = .ok (state2, entry2) := rfl

theorem reachable_state1 : Reachable sha0 hmac0 none state1 :=
  .step .init (by intro x hx; simp [initialState] at hx) run1_ok

theorem reachable_state2 : Reachable sha0 hmac0 none state2 :=
  .step reachable_state1 (by decide) run2_ok

/-- C1 witness: the chain-linkage property evaluated on the concrete
two-entry ledger. -/
theorem audit_chain_linkage_witness :
    state2.entries ≠ [] ∧ ChainLinkageProp (sortByTimestamp state2.entries) :=
  ⟨by decide, audit_chain_linkage reachable_state2⟩

/-- `calculateHash` only reads the nine serialized fields. -/
theorem calculateHash_congr {sha : String → String} {d d' : EntryData}
    (h1 : d.timestamp = d'.timestamp) (h2 : d.action = d'.action)
    (h3 : d.userId = d'.userId) (h4 : d.username = d'.username)
    (h5 : d.resourceType = d'.resourceType) (h6 : d.resourceId = d'.resourceId)
    (h7 : d.details = d'.details) (h8 : d.previousHash = d'.previousHash)
    (h9 : d.success = d'.success) :
    calculateHash sha d = calculateHash sha d' := by
  unfold calculateHash hashInput
  rw [h1, h2, h3, h4, h5, h6, h7, h8, h9]

/-- C2. The stored `hash` of every entry produced by `createAuditEntry` is the
digest of the stable serialization of exactly the ordered field set
`{timestamp, action, userId, username, resourceType, resourceId, details,
previousHash, success}` of the stored entry (so recomputing it from the
stored fields reproduces it), and no other field influences `calculateHash`:
two field sets agreeing on those nine fields yield the same digest. -/
theorem hash_field_binding :
    (∀ (sha : String → String) (hmac : String → String → String)
      (env : Option String) (st st' : ServiceState) (t nid : Nat)
      (fault : Bool) (p : AuditParams) (e : AuditEntry),
      createAuditEntry sha hmac env st t nid fault p = .ok (st', e) →
      e.hash = sha (hashInput e.data) ∧ calculateHash sha e.data = e.hash) ∧
    (∀ (sha : String → String) (d d' : EntryData),
      d.timestamp = d'.timestamp → d.action = d'.action →
      d.userId = d'.userId → d.username = d'.username →
      d.resourceType = d'.resourceType → d.resourceId = d'.resourceId →
      d.details = d'.details → d.previousHash = d'.previousHash →
      d.success = d'.success →
      calculateHash sha d = calculateHash sha d') := by
  constructor
  · intro sha hmac env st st' t nid fault p e h
    obtain ⟨-, -, -, -, hhash, -, -⟩ := createAuditEntry_ok h
    exact ⟨hhash, hhash.symm⟩
  · intro sha d d' h1 h2 h3 h4 h5 h6 h7 h8 h9
    exact calculateHash_congr h1 h2 h3 h4 h5 h6 h7 h8 h9

/-- C2 witness: the binding evaluated on the first concrete entry, and the
nine-field congruence evaluated on two concrete field sets differing only in
the fields excluded from the hash. -/
theorem hash_field_binding_witness :
    (entry1.hash = sha0 (hashInput entry1.data) ∧
      calculateHash sha0 entry1.data = entry1.hash) ∧
    calculateHash sha0 entry1.data =
      calculateHash sha0 { entry1.data with
        ipAddress := some "10.0.0.1", userAgent := some "curl"
        sensitivity := "RESTRICTED", complianceTags := ["SOX"]
        errorMessage := some "boom" } :=
  ⟨hash_field_binding.1 sha0 hmac0 none initialState state1 1 1 false params1
      entry1 run1_ok,
    hash_field_binding.2 sha0 _ _ rfl rfl rfl rfl rfl rfl rfl rfl rfl⟩

/-- C7. Every attempt to update a persisted audit entry (a mongoose `save` of
a non-new document) and every delete attempt fails with the immutability
error of the corresponding model hook; none of these paths returns a new
store, so stored entries are unchanged by them. -/
theorem audit_entry_immutable :
    (∀ (store : List AuditEntry) (e : AuditEntry),
      saveAuditEntry store e false = .error "Audit entries cannot be modified") ∧
    (∀ (store : List AuditEntry) (q : AuditEntry → Bool),
      deleteOneAuditEntry store q = .error "Audit entries cannot be deleted") ∧
    (∀ (store : List AuditEntry) (q : AuditEntry → Bool),
      deleteManyAuditEntry store q = .error "Audit entries cannot be deleted") := by
  refine ⟨fun store e => rfl, fun store q => rfl, fun store q => rfl⟩

/-- C8. Appending an entry whose `hash` collides with a stored entry fails
with `DuplicateHashError`; a successful append never overwrites (the new
store is the old one with the entry appended, and the collision was absent);
and every reachable ledger has pairwise distinct hashes. -/
theorem duplicate_hash_rejected :
    (∀ (store : List AuditEntry) (e : AuditEntry),
      (∃ x ∈ store, x.hash = e.hash) →
      appendEntry store e false = .error .duplicateHash) ∧
    (∀ (store : List AuditEntry) (e : AuditEntry) (fault : Bool)
      (st' : List AuditEntry), appendEntry store e fault = .ok st' →
      (∀ x ∈ store, x.hash ≠ e.hash) ∧ st' = store ++ [e]) ∧
    (∀ (sha : String → String) (hmac : String → String → String)
      (env : Option String) (st : ServiceState), Reachable sha hmac env st →
      (st.entries.map (fun e => e.hash)).Nodup) := by
  refine ⟨?_, ?_, ?_⟩
  · intro store e ⟨x, hx, hxe⟩
    unfold appendEntry
    rw [if_neg (by simp), if_pos]
    exact List.any_eq_true.mpr ⟨x, hx, by simp [hxe]⟩
  · intro store e fault st' h
    unfold appendEntry at h
    cases fault with
    | true => simp at h
    | false =>
      simp only [Bool.false_eq_true, if_false] at h
      by_cases hc : store.any (fun x => x.hash == e.hash) = true
      · rw [if_pos hc] at h; simp at h
      · rw [if_neg hc] at h
        simp only [Except.ok.injEq] at h
        refine ⟨?_, h.symm⟩
        intro x hx hxe
        exact hc (List.any_eq_true.mpr ⟨x, hx, by simp [hxe]⟩)
  · intro sha hmac env st h
    exact (reachable_inv h).2.2.2.1

/-- C8 witness: re-appending the first concrete entry is rejected with the
duplicate-hash error, a fresh concrete append succeeds without overwriting,
and the concrete two-entry ledger has distinct hashes. -/
theorem duplicate_hash_rejected_witness :
    appendEntry state1.entries entry1 false = .error .duplicateHash ∧
    ((∀ x ∈ state1.entries, x.hash ≠ entry2.hash) ∧
      state2.entries = state1.entries ++ [entry2]) ∧
    (state2.entries.map (fun e => e.hash)).Nodup :=
  ⟨duplicate_hash_rejected.1 state1.entries entry1 (by decide),
    duplicate_hash_rejected.2.1 state1.entries entry2 false state2.entries rfl,
    duplicate_hash_rejected.2.2 sha0 hmac0 none state2 reachable_state2⟩

/-- The previous entry seen by iteration `i` of the verification loop when it
was started with previous entry `p`. -/
def prevOf (p : Option AuditEntry) (es : List AuditEntry) : Nat → Option AuditEntry
  | 0 => p
  | i + 1 => es[i]?

theorem mem_verifyLoop {sha : String → String} {x : IntegrityError} :
    ∀ {p : Option AuditEntry} {es : List AuditEntry},
    x ∈ verifyLoop sha p es ↔
      ∃ i e, es[i]? = some e ∧ x ∈ checkEntry sha (prevOf p es i) e := by
  intro p es
  induction es generalizing p with
  | nil => simp [verifyLoop]
  | cons e rest ih =>
    simp only [verifyLoop, List.mem_append]
    rw [ih]
    constructor
    · rintro (hx | ⟨i, f, hf, hxf⟩)
      · exact ⟨0, e, List.getElem?_cons_zero, by simpa [prevOf] using hx⟩
      · refine ⟨i + 1, f, by simpa using hf, ?_⟩
        cases i with
        | zero => simpa [prevOf] using hxf
        | succ j => simpa [prevOf] using hxf
    · rintro ⟨i, f, hf, hxf⟩
      cases i with
      | zero =>
        simp only [List.getElem?_cons_zero, Option.some.injEq] at hf
        subst hf
        left
        simpa [prevOf] using hxf
      | succ j =>
        right
        refine ⟨j, f, by simpa using hf, ?_⟩
        cases j with
        | zero => simpa [prevOf] using hxf
        | succ k => simpa [prevOf] using hxf

theorem mem_checkEntry {sha : String → String} {x : IntegrityError}
    {p : Option AuditEntry} {e : AuditEntry} :
    x ∈ checkEntry sha p e ↔
      ((calculateHash sha e.data ≠ e.hash ∧
          x = .hashMismatch e.id e.hash (calculateHash sha e.data)) ∨
        (∃ q, p = some q ∧ e.data.previousHash ≠ q.hash ∧
          x = .chainBroken e.id q.id q.hash e.data.previousHash)) := by
  rcases p with - | q
  · show x ∈ (if calculateHash sha e.data ≠ e.hash then
        [IntegrityError.hashMismatch e.id e.hash (calculateHash sha e.data)]
      else []) ++ [] ↔ _
    by_cases hc : calculateHash sha e.data ≠ e.hash
    · rw [if_pos hc]; simp [hc]
    · rw [if_neg hc]; simp [hc]
  · show x ∈ (if calculateHash sha e.data ≠ e.hash then
        [IntegrityError.hashMismatch e.id e.hash (calculateHash sha e.data)]
      else []) ++
        (if e.data.previousHash ≠ q.hash then
          [IntegrityError.chainBroken e.id q.id q.hash e.data.previousHash]
        else []) ↔ _
    by_cases hc : calculateHash sha e.data ≠ e.hash <;>
      by_cases hl : e.data.previousHash ≠ q.hash
    · rw [if_pos hc, if_pos hl]; simp [hc, hl]
    · rw [if_pos hc, if_neg hl]; simp [hc, hl]
    · rw [if_neg hc, if_pos hl]; simp [hc, hl]
    · rw [if_neg hc, if_neg hl]; simp [hc, hl]

theorem nodup_id_index_inj {es : List AuditEntry}
    (hids : (es.map (fun e => e.id)).Nodup) :
    ∀ {i j : Nat} (hi : i < es.length) (hj : j < es.length),
      (es.get ⟨i, hi⟩).id = (es.get ⟨j, hj⟩).id → i = j := by
  intro i j hi hj hij
  have hinj := List.nodup_iff_injective_get.mp hids
  have hlen : (es.map (fun e => e.id)).length = es.length := List.length_map _ _
  have h1 : (es.map (fun e => e.id)).get ⟨i, by omega⟩ = (es.get ⟨i, hi⟩).id :=
    List.get_map _
  have h2 : (es.map (fun e => e.id)).get ⟨j, by omega⟩ = (es.get ⟨j, hj⟩).id :=
    List.get_map _
  have hfin : (⟨i, by omega⟩ : Fin (es.map (fun e => e.id)).length) =
      ⟨j, by omega⟩ := hinj (by rw [h1, h2]; exact hij)
  exact congrArg Fin.val hfin

/-- C3. `verifyChainIntegrity` fetches the entries of the requested range
sorted ascending by timestamp; `totalEntries` is their count; `valid` holds
exactly when the error list is empty; and (given the fetched entries have
distinct ids, as Mongo `_id`s are) the loop records the hash-mismatch error
for entry `i` exactly when its recomputed content hash differs from its
stored `hash`, and the chain-broken error for entry `i + 1` exactly when its
`previousHash` differs from entry `i`'s stored `hash`. -/
theorem verify_integrity_characterization (sha : String → String)
    (store : List AuditEntry) (startDate endDate : Option Nat)
    (es : List AuditEntry)
    (hes : es = sortByTimestamp (filterRange store startDate endDate))
    (hids : (es.map (fun e => e.id)).Nodup) :
    (verifyChainIntegrity sha store startDate endDate).totalEntries =
      es.length ∧
    ((verifyChainIntegrity sha store startDate endDate).valid = true ↔
      (verifyChainIntegrity sha store startDate endDate).errors = []) ∧
    (∀ i (hi : i < es.length),
      (IntegrityError.hashMismatch (es.get ⟨i, hi⟩).id (es.get ⟨i, hi⟩).hash
          (calculateHash sha (es.get ⟨i, hi⟩).data) ∈
        (verifyChainIntegrity sha store startDate endDate).errors ↔
      calculateHash sha (es.get ⟨i, hi⟩).data ≠ (es.get ⟨i, hi⟩).hash)) ∧
    (∀ i (hi : i + 1 < es.length),
      (IntegrityError.chainBroken (es.get ⟨i + 1, hi⟩).id
          (es.get ⟨i, Nat.lt_of_succ_lt hi⟩).id
          (es.get ⟨i, Nat.lt_of_succ_lt hi⟩).hash
          (es.get ⟨i + 1, hi⟩).data.previousHash ∈
        (verifyChainIntegrity sha store startDate endDate).errors ↔
      (es.get ⟨i + 1, hi⟩).data.previousHash ≠
        (es.get ⟨i, Nat.lt_of_succ_lt hi⟩).hash)) := by
  have hrw : verifyChainIntegrity sha store startDate endDate =
      { valid := (verifyLoop sha none es).length == 0,
        totalEntries := es.length,
        errors := verifyLoop sha none es } := by
    rw [verifyChainIntegrity, ← hes]
  rw [hrw]
  refine ⟨rfl, ?_, ?_, ?_⟩
  · simp only [beq_iff_eq, List.length_eq_zero]
  · intro i hi
    constructor
    · intro hmem
      obtain ⟨j, f, hf, hxf⟩ := mem_verifyLoop.mp hmem
      obtain ⟨hj, hfj⟩ := List.getElem?_eq_some.mp hf
      rcases mem_checkEntry.mp hxf with ⟨hc, heq⟩ | ⟨q, -, -, heq⟩
      · simp only [IntegrityError.hashMismatch.injEq] at heq
        obtain ⟨hid, -, -⟩ := heq
        have hij : i = j := nodup_id_index_inj hids hi hj
          (by rw [hid]; simp [List.get_eq_getElem, hfj])
        subst hij
        have hfeq : f = es.get ⟨i, hi⟩ := by simp [List.get_eq_getElem, hfj]
        rw [hfeq] at hc
        exact hc
      · simp at heq
    · intro hne
      apply mem_verifyLoop.mpr
      exact ⟨i, es.get ⟨i, hi⟩, by simp [List.get_eq_getElem],
        mem_checkEntry.mpr (Or.inl ⟨hne, rfl⟩)⟩
  · intro i hi
    constructor
    · intro hmem
      obtain ⟨j, f, hf, hxf⟩ := mem_verifyLoop.mp hmem
      obtain ⟨hj, hfj⟩ := List.getElem?_eq_some.mp hf
      rcases mem_checkEntry.mp hxf with ⟨-, heq⟩ | ⟨q, hp, hc, heq⟩
      · simp at heq
      · simp only [IntegrityError.chainBroken.injEq] at heq
        obtain ⟨hid, -, -, -⟩ := heq
        have hij : i + 1 = j := nodup_id_index_inj hids hi hj
          (by rw [hid]; simp [List.get_eq_getElem, hfj])
        subst hij
        have hfeq : f = es.get ⟨i + 1, hi⟩ := by
          simp [List.get_eq_getElem, hfj]
        have hq : prevOf none es (i + 1) = es[i]? := rfl
        rw [hq, List.getElem?_eq_getElem (Nat.lt_of_succ_lt hi)] at hp
        have hqeq : q = es.get ⟨i, Nat.lt_of_succ_lt hi⟩ := by
          simpa [List.get_eq_getElem] using hp.symm
        rw [hfeq, hqeq] at hc
        exact hc
    · intro hne
      apply mem_verifyLoop.mpr
      refine ⟨i + 1, es.get ⟨i + 1, hi⟩, by simp [List.get_eq_getElem],
        mem_checkEntry.mpr (Or.inr ⟨es.get ⟨i, Nat.lt_of_succ_lt hi⟩, ?_, hne, rfl⟩)⟩
      show prevOf none es (i + 1) = _
      rw [show prevOf none es (i + 1) = es[i]? from rfl,
        List.getElem?_eq_getElem (Nat.lt_of_succ_lt hi)]
      simp [List.get_eq_getElem]

/-- C3 witness: the characterization evaluated on the concrete two-entry
ledger over the full time range. -/
theorem verify_integrity_characterization_witness :
    (verifyChainIntegrity sha0 state2.entries none none).totalEntries =
      state2.entries.length ∧
    ((verifyChainIntegrity sha0 state2.entries none none).valid = true ↔
      (verifyChainIntegrity sha0 state2.entries none none).errors = []) :=
  ⟨(verify_integrity_characterization sha0 state2.entries none none
      state2.entries (by decide) (by decide)).1,
    (verify_integrity_characterization sha0 state2.entries none none
      state2.entries (by decide) (by decide)).2.1⟩

/-- Relation between a stored entry and a post-hoc mutation of it touching
only fields excluded from the hash input — `ipAddress`, `userAgent`,
`sensitivity`, `complianceTags`, `errorMessage` — and/or the `signature`
(all of which are left unconstrained). -/
def ExcludedMutation (e e' : AuditEntry) : Prop :=
  e'.id = e.id ∧ e'.hash = e.hash ∧
  e'.data.timestamp = e.data.timestamp ∧ e'.data.action = e.data.action ∧
  e'.data.userId = e.data.userId ∧ e'.data.username = e.data.username ∧
  e'.data.resourceType = e.data.resourceType ∧
  e'.data.resourceId = e.data.resourceId ∧
  e'.data.details = e.data.details ∧
  e'.data.previousHash = e.data.previousHash ∧
  e'.data.success = e.data.success

instance : ∀ e e', Decidable (ExcludedMutation e e') := by
  intro e e'
  unfold ExcludedMutation
  infer_instance

/-- Relatedness of the `previousEntry` loop variables. -/
def PrevRel : Option AuditEntry → Option AuditEntry → Prop
  | none, none => True
  | some q, some q' => q'.id = q.id ∧ q'.hash = q.hash
  | _, _ => False

theorem checkEntry_congr {sha : String → String} {p p' : Option AuditEntry}
    {e e' : AuditEntry} (he : ExcludedMutation e e') (hp : PrevRel p p') :
    checkEntry sha p' e' = checkEntry sha p e := by
  obtain ⟨hid, hh, h1, h2, h3, h4, h5, h6, h7, h8, h9⟩ := he
  have hcalc : calculateHash sha e'.data = calculateHash sha e.data :=
    calculateHash_congr h1 h2 h3 h4 h5 h6 h7 h8 h9
  rcases p with - | q <;> rcases p' with - | q'
  · show ((if calculateHash sha e'.data ≠ e'.hash then
        [IntegrityError.hashMismatch e'.id e'.hash (calculateHash sha e'.data)]
      else []) ++ []) =
      ((if calculateHash sha e.data ≠ e.hash then
        [IntegrityError.hashMismatch e.id e.hash (calculateHash sha e.data)]
      else []) ++ [])
    rw [hcalc, hid, hh]
  · exact hp.elim
  · exact hp.elim
  · obtain ⟨hqid, hqh⟩ := hp
    show ((if calculateHash sha e'.data ≠ e'.hash then
        [IntegrityError.hashMismatch e'.id e'.hash (calculateHash sha e'.data)]
      else []) ++
      (if e'.data.previousHash ≠ q'.hash then
        [IntegrityError.chainBroken e'.id q'.id q'.hash e'.data.previousHash]
      else [])) =
      ((if calculateHash sha e.data ≠ e.hash then
        [IntegrityError.hashMismatch e.id e.hash (calculateHash sha e.data)]
      else []) ++
      (if e.data.previousHash ≠ q.hash then
        [IntegrityError.chainBroken e.id q.id q.hash e.data.previousHash]
      else []))
    rw [hcalc, hid, hh, h8, hqid, hqh]

theorem verifyLoop_congr {sha : String → String} :
    ∀ {es es' : List AuditEntry} {p p' : Option AuditEntry},
    List.Forall₂ ExcludedMutation es es' → PrevRel p p' →
    verifyLoop sha p' es' = verifyLoop sha p es := by
  intro es es' p p' h
  induction h generalizing p p' with
  | nil => intro hp; rfl
  | cons he hrest ih =>
    rename_i a b l1 l2
    intro hp
    show checkEntry sha p' b ++ verifyLoop sha (some b) l2 =
      checkEntry sha p a ++ verifyLoop sha (some a) l1
    rw [checkEntry_congr he hp,
      ih (show PrevRel (some a) (some b) from ⟨he.1, he.2.1⟩)]

theorem forall₂_mem_right {R : AuditEntry → AuditEntry → Prop} :
    ∀ {l1 l2 : List AuditEntry}, List.Forall₂ R l1 l2 →
    ∀ {y}, y ∈ l2 → ∃ x ∈ l1, R x y := by
  intro l1 l2 h
  induction h with
  | nil => intro y hy; simp at hy
  | cons hab h ih =>
    intro y hy
    rcases List.mem_cons.mp hy with rfl | hy
    · exact ⟨_, List.mem_cons_self _ _, hab⟩
    · obtain ⟨x, hx, hR⟩ := ih hy
      exact ⟨x, List.mem_cons_of_mem _ hx, hR⟩

theorem forall₂_sorted {es es' : List AuditEntry}
    (h : List.Forall₂ ExcludedMutation es es')
    (hs : List.Sorted (fun a b : AuditEntry =>
      a.data.timestamp ≤ b.data.timestamp) es) :
    List.Sorted (fun a b : AuditEntry =>
      a.data.timestamp ≤ b.data.timestamp) es' := by
  induction h with
  | nil => exact List.sorted_nil
  | cons hab hrest ih =>
    rename_i a b l1 l2
    rw [List.sorted_cons] at hs ⊢
    refine ⟨?_, ih hs.2⟩
    intro y hy
    obtain ⟨x, hx, hR⟩ := forall₂_mem_right hrest hy
    have hts_y : y.data.timestamp = x.data.timestamp := hR.2.2.1
    have hts_b : b.data.timestamp = a.data.timestamp := hab.2.2.1
    rw [hts_y, hts_b]
    exact hs.1 x hx

theorem filterRange_none (s : List AuditEntry) : filterRange s none none = s := by
  unfold filterRange inRange
  simp

theorem sortByTimestamp_sorted_eq {es : List AuditEntry}
    (hs : List.Sorted (fun a b : AuditEntry =>
      a.data.timestamp ≤ b.data.timestamp) es) :
    sortByTimestamp es = es :=
  hs.insertionSort_eq

/-- C9. `calculateHash` is unchanged by arbitrary replacement of `ipAddress`,
`userAgent`, `sensitivity`, `complianceTags` and `errorMessage`; consequently
mutating those fields (and/or the `signature`) of stored entries post-hoc
leaves `verifyChainIntegrity` with an identical result, and in particular a
ledger that verified as valid still verifies as valid with no errors. -/
theorem excluded_fields_undetectable :
    (∀ (sha : String → String) (d : EntryData) (ip ua : Option String)
      (sv : String) (ct : List String) (em : Option String),
      calculateHash sha
        { d with
          ipAddress := ip, userAgent := ua, sensitivity := sv,
          complianceTags := ct, errorMessage := em } =
        calculateHash sha d) ∧
    (∀ (sha : String → String) (es es' : List AuditEntry),
      List.Forall₂ ExcludedMutation es es' →
      List.Sorted (fun a b : AuditEntry =>
        a.data.timestamp ≤ b.data.timestamp) es →
      verifyChainIntegrity sha es' none none =
        verifyChainIntegrity sha es none none) ∧
    (∀ (sha : String → String) (es es' : List AuditEntry),
      List.Forall₂ ExcludedMutation es es' →
      List.Sorted (fun a b : AuditEntry =>
        a.data.timestamp ≤ b.data.timestamp) es →
      (verifyChainIntegrity sha es none none).valid = true →
      (verifyChainIntegrity sha es' none none).valid = true ∧
        (verifyChainIntegrity sha es' none none).errors = []) := by
  have hmain : ∀ (sha : String → String) (es es' : List AuditEntry),
      List.Forall₂ ExcludedMutation es es' →
      List.Sorted (fun a b : AuditEntry =>
        a.data.timestamp ≤ b.data.timestamp) es →
      verifyChainIntegrity sha es' none none =
        verifyChainIntegrity sha es none none := by
    intro sha es es' h hs
    have hs' := forall₂_sorted h hs
    have herr : verifyLoop sha none es' = verifyLoop sha none es :=
      verifyLoop_congr h (show PrevRel none none from trivial)
    have hlen : es'.length = es.length := h.length_eq.symm
    unfold verifyChainIntegrity
    rw [filterRange_none, filterRange_none]
    simp only [sortByTimestamp_sorted_eq hs, sortByTimestamp_sorted_eq hs',
      herr, hlen]
  refine ⟨?_, hmain, ?_⟩
  · intro sha d ip ua sv ct em
    exact calculateHash_congr rfl rfl rfl rfl rfl rfl rfl rfl rfl
  · intro sha es es' h hs hvalid
    rw [hmain sha es es' h hs] at *
    refine ⟨hvalid, ?_⟩
    have : (verifyChainIntegrity sha es none none).errors.length = 0 := by
      have := hvalid
      unfold verifyChainIntegrity at this ⊢
      simpa using this
    exact List.length_eq_zero.mp this

/-- A post-hoc mutation of the first concrete entry in its excluded fields. -/
def entry1m : AuditEntry :=
  { entry1 with
    signature := "forged"
    data := { entry1.data with
      ipAddress := some "10.0.0.1", userAgent := some "curl",
      sensitivity := "RESTRICTED", complianceTags := ["SOX"],
      errorMessage := some "oops" } }

/-- A post-hoc mutation of the second concrete entry in its excluded fields. -/
def entry2m : AuditEntry :=
  { entry2 with
    data := { entry2.data with userAgent := some "Mozilla" } }

/-- C9 witness: the hash congruence and the verification invariance evaluated
on the concrete two-entry ledger and its mutated copy. -/
theorem excluded_fields_undetectable_witness :
    calculateHash sha0
      { entry1.data with
        ipAddress := some "10.0.0.1", userAgent := some "curl",
        sensitivity := "RESTRICTED", complianceTags := ["SOX"],
        errorMessage := some "oops" } =
      calculateHash sha0 entry1.data ∧
    verifyChainIntegrity sha0 [entry1m, entry2m] none none =
      verifyChainIntegrity sha0 state2.entries none none :=
  ⟨excluded_fields_undetectable.1 sha0 entry1.data _ _ _ _ _,
    excluded_fields_undetectable.2.1 sha0 state2.entries [entry1m, entry2m]
      (List.Forall₂.cons (by decide)
        (List.Forall₂.cons (by decide) List.Forall₂.nil))
      (by decide)⟩

/-- C10. A compliance report over a period (and optional standards filter)
matching zero entries is still produced: all counts are zero, both
breakdowns and the violations list are empty, and `successRate` is the
string `"NaN%"`, because `(0 / 0 * 100).toFixed(2)` evaluates through the
unguarded JS division `0 / 0 = NaN`. -/
theorem compliance_report_empty (sha : String → String)
    (store : List AuditEntry) (startDate endDate : Nat)
    (standards : Option (List String)) (reportId : String)
    (hempty : reportFilter store startDate endDate standards = []) :
    (generateComplianceReport sha store startDate endDate standards
        reportId).statistics =
      { totalEntries := 0, uniqueUsers := 0, actionBreakdown := [],
        sensitivityBreakdown := [], failureCount := 0,
        successRate := "NaN%" } ∧
    (generateComplianceReport sha store startDate endDate standards
        reportId).violations = [] := by
  unfold generateComplianceReport
  rw [hempty]
  refine ⟨?_, rfl⟩
  show ComplianceStatistics.mk _ _ _ _ _ _ = _
  have hdiv : jsDiv (.num ((0 : Nat) : ℚ)) (.num ((0 : Nat) : ℚ)) = .nan := by
    unfold jsDiv
    norm_num
  simp only [List.filter_nil, List.length_nil, List.map_nil, List.dedup_nil,
    countByField, List.foldl_nil, hdiv]
  rfl

/-- C10 witness: the report evaluated over the concrete two-entry ledger on a
period matching no entries. -/
theorem compliance_report_empty_witness :
    (generateComplianceReport sha0 state2.entries 10 20 none "r1").statistics =
      { totalEntries := 0, uniqueUsers := 0, actionBreakdown := [],
        sensitivityBreakdown := [], failureCount := 0,
        successRate := "NaN%" } ∧
    (generateComplianceReport sha0 state2.entries 10 20 none "r1").violations =
      [] :=
  compliance_report_empty sha0 state2.entries 10 20 none "r1" (by decide)

/-- The audit entry `createAuditEntry` constructs and hands to the store
(`{...entryData, hash, signature}` with the Mongo-assigned `_id`). -/
def newEntryFor (sha : String → String) (hmac : String → String → String)
    (env : Option String) (st : ServiceState) (t nid : Nat)
    (p : AuditParams) : AuditEntry :=
  let prevHash :=
    match lastByTimestamp st.entries with
    | some lastEntry => lastEntry.hash
    | none => st.prevHashCache
  let ed := buildEntryData p t prevHash
  { id := nid, data := ed, hash := calculateHash sha ed,
    signature := generateSignature hmac env ed }

/-- C6 (amended). `createAuditEntry` makes exactly one append attempt and
rethrows its failure unchanged — a duplicate-hash failure is propagated
immediately exactly like a transient storage failure, with no retry — and
it returns success only when the append succeeded, storing the constructed
entry. -/
theorem create_entry_propagates_append_errors :
    (∀ (sha : String → String) (hmac : String → String → String)
      (env : Option String) (st : ServiceState) (t nid : Nat) (fault : Bool)
      (p : AuditParams) (err : AuditError),
      appendEntry st.entries (newEntryFor sha hmac env st t nid p) fault =
        .error err →
      createAuditEntry sha hmac env st t nid fault p = .error err) ∧
    (∀ (sha : String → String) (hmac : String → String → String)
      (env : Option String) (st : ServiceState) (t nid : Nat) (p : AuditParams),
      createAuditEntry sha hmac env st t nid true p = .error .storageError) ∧
    (∀ (sha : String → String) (hmac : String → String → String)
      (env : Option String) (st st' : ServiceState) (t nid : Nat)
      (fault : Bool) (p : AuditParams) (e : AuditEntry),
      createAuditEntry sha hmac env st t nid fault p = .ok (st', e) →
      appendEntry st.entries e fault = .ok st'.entries) := by
  have hshape : ∀ (sha : String → String) (hmac : String → String → String)
      (env : Option String) (st : ServiceState) (t nid : Nat) (fault : Bool)
      (p : AuditParams),
      createAuditEntry sha hmac env st t nid fault p =
        match appendEntry st.entries (newEntryFor sha hmac env st t nid p)
            fault with
        | .error err => .error err
        | .ok store =>
          .ok (⟨store, (newEntryFor sha hmac env st t nid p).hash⟩,
            newEntryFor sha hmac env st t nid p) := by
    intro sha hmac env st t nid fault p
    rfl
  refine ⟨?_, ?_, ?_⟩
  · intro sha hmac env st t nid fault p err h
    rw [hshape, h]
  · intro sha hmac env st t nid p
    rw [hshape]
    rfl
  · intro sha hmac env st st' t nid fault p e h
    rw [hshape] at h
    rcases happ : appendEntry st.entries (newEntryFor sha hmac env st t nid p)
        fault with err | store
    · rw [happ] at h; simp at h
    · rw [happ] at h
      simp only [Except.ok.injEq, Prod.mk.injEq] at h
      obtain ⟨h1, h2⟩ := h
      subst h2
      rw [happ, ← h1]

/-- The pre-existing entry of the no-retry counterexample; its stored hash is
the digest the next `createAuditEntry` call will recompute. -/
def cEntry0 : AuditEntry :=
  { id := 1, data := buildEntryData params2 1 genesisHash,
    hash := "DUP", signature := "sig0" }

/-- One-entry ledger used by the no-retry counterexample. -/
def cState : ServiceState := ⟨[cEntry0], genesisHash⟩

/-- A digest function that collides with the stored hash exactly on the
serialization produced at instant 5, and is fresh elsewhere. -/
def cSha : String → String :=
  fun s => if s = hashInput (buildEntryData params1 5 "DUP") then "DUP" else s

/-- `true` iff the call returned a created entry. -/
def createSucceeded (r : Except AuditError (ServiceState × AuditEntry)) : Bool :=
  match r with
  | .ok _ => true
  | .error _ => false

/-- C6 counterexample: at instant 5 the append fails with the duplicate-hash
error and `createAuditEntry` surfaces it at once, although the same call at
the fresh instant 6 — the retry the claim says happens before failure is
surfaced — would succeed. -/
theorem create_entry_no_retry_counterexample :
    createAuditEntry cSha hmac0 none cState 5 2 false params1 =
      .error .duplicateHash ∧
    createSucceeded (createAuditEntry cSha hmac0 none cState 6 2 false params1) =
      true := by
  constructor
  · rfl
  · rfl

/-- Modelled from the spec: the "canonical serialization of the entry
including its `hash`" that C5 claims the signature covers — the entryData
serialization extended with a `hash` field. No such serialization exists in
the source: `generateSignature` stringifies the `entryData` object, which
has no `hash` field. -/
def specSerializeEntryWithHash (e : AuditEntry) : String :=
  let d := e.data
  let fields : List (Option String) := [
    some ("\"timestamp\":" ++ jsonDate d.timestamp),
    some ("\"action\":" ++ jstr d.action),
    some ("\"userId\":" ++ jstr d.userId),
    some ("\"username\":" ++ jstr d.username),
    some ("\"resourceType\":" ++ jstr d.resourceType),
    some ("\"resourceId\":" ++ jstr d.resourceId),
    some ("\"details\":" ++ d.details),
    (d.ipAddress.map (fun s => "\"ipAddress\":" ++ jstr s)),
    (d.userAgent.map (fun s => "\"userAgent\":" ++ jstr s)),
    some ("\"sensitivity\":" ++ jstr d.sensitivity),
    some ("\"complianceTags\":" ++ jsonArr d.complianceTags),
    some ("\"previousHash\":" ++ jstr d.previousHash),
    some ("\"success\":" ++ jsonBool d.success),
    (d.errorMessage.map (fun s => "\"errorMessage\":" ++ jstr s)),
    some ("\"hash\":" ++ jstr e.hash)]
  "\x7b" ++ String.intercalate "," (fields.filterMap id) ++ "\x7d"

/-- C5 (amended). The stored signature is the keyed MAC over the JSON
serialization of the entry's content fields — the `entryData`, which
contains neither `hash` nor `signature` — and it is independent of the
digest function, hence does not depend on the entry's computed hash. -/
theorem signature_over_entry_data :
    (∀ (sha : String → String) (hmac : String → String → String)
      (env : Option String) (st st' : ServiceState) (t nid : Nat)
      (fault : Bool) (p : AuditParams) (e : AuditEntry),
      createAuditEntry sha hmac env st t nid fault p = .ok (st', e) →
      e.signature = hmac (auditSecret env) (serializeEntryData e.data)) ∧
    (∀ (sha₁ sha₂ : String → String) (hmac : String → String → String)
      (env : Option String) (st st₁ st₂ : ServiceState) (t nid : Nat)
      (fault : Bool) (p : AuditParams) (e₁ e₂ : AuditEntry),
      createAuditEntry sha₁ hmac env st t nid fault p = .ok (st₁, e₁) →
      createAuditEntry sha₂ hmac env st t nid fault p = .ok (st₂, e₂) →
      e₁.signature = e₂.signature) := by
  constructor
  · intro sha hmac env st st' t nid fault p e h
    obtain ⟨-, -, -, -, -, hsig, -⟩ := createAuditEntry_ok h
    exact hsig
  · intro sha₁ sha₂ hmac env st st₁ st₂ t nid fault p e₁ e₂ h₁ h₂
    obtain ⟨-, -, -, hdata₁, -, hsig₁, -⟩ := createAuditEntry_ok h₁
    obtain ⟨-, -, -, hdata₂, -, hsig₂, -⟩ := createAuditEntry_ok h₂
    rw [hsig₁, hsig₂, hdata₁, hdata₂]

/-- An alternative digest function for the C5 counterexample. -/
def shaAlt : String → String := fun s => "%" ++ s

/-- The first concrete call re-run with the alternative digest function. -/
def run1alt : Except AuditError (ServiceState × AuditEntry) :=
  createAuditEntry shaAlt hmac0 none initialState 1 1 false params1

/-- The entry returned by the alternative-digest call. -/
def entry1alt : AuditEntry :=
  match run1alt with | .ok (_, e) => e | .error _ => default

/-- C5 counterexample: the stored signature of the first concrete entry is
not the MAC over the serialization including the `hash` field, and two
entries identical except for their computed hash (obtained by switching the
digest function) carry the same signature — the signature does not depend on
the hash. -/
theorem signature_over_entry_data_counterexample :
    entry1.signature ≠
      hmac0 (auditSecret none) (specSerializeEntryWithHash entry1) ∧
    entry1alt.hash ≠ entry1.hash ∧
    entry1alt.signature = entry1.signature := by
  refine ⟨by decide, by decide, by decide⟩

/-- Post-hoc corruption of a stored entry's `previousHash` field. -/
def corruptPrevHash (e : AuditEntry) (v : String) : AuditEntry :=
  { e with data := { e.data with previousHash := v } }

/-- Post-hoc corruption of a stored entry's `hash` field. -/
def corruptHash (e : AuditEntry) (v : String) : AuditEntry :=
  { e with hash := v }

/-- A well-formed ledger as produced by the service: hash-chained, strictly
time-ordered, and with every stored `hash` equal to the recomputed content
hash. -/
def WellFormedChain (sha : String → String) (es : List AuditEntry) : Prop :=
  es.Chain' (fun a b => b.data.previousHash = a.hash) ∧
  es.Pairwise (fun a b => a.data.timestamp < b.data.timestamp) ∧
  (∀ e ∈ es, e.hash = calculateHash sha e.data)

/-- The `previousEntry` value the loop carries after traversing `xs`, having
started from `p`. -/
def lastD (p : Option AuditEntry) (xs : List AuditEntry) : Option AuditEntry :=
  xs.getLast?.or p

theorem lastD_cons (p : Option AuditEntry) (x : AuditEntry)
    (xs : List AuditEntry) : lastD p (x :: xs) = lastD (some x) xs := by
  cases xs with
  | nil => rfl
  | cons y ys =>
    obtain ⟨l, hl⟩ : ∃ l, (y :: ys).getLast? = some l := by
      rw [List.getLast?_eq_getLast _ (by simp)]
      exact ⟨_, rfl⟩
    unfold lastD
    rw [List.getLast?_cons_cons, hl]
    rfl

theorem verifyLoop_append (sha : String → String) :
    ∀ (xs ys : List AuditEntry) (p : Option AuditEntry),
    verifyLoop sha p (xs ++ ys) =
      verifyLoop sha p xs ++ verifyLoop sha (lastD p xs) ys := by
  intro xs
  induction xs with
  | nil => intro ys p; rfl
  | cons x xs ih =>
    intro ys p
    show checkEntry sha p x ++ verifyLoop sha (some x) (xs ++ ys) = _
    rw [ih ys (some x), lastD_cons]
    show _ = (checkEntry sha p x ++ verifyLoop sha (some x) xs) ++ _
    rw [List.append_assoc]

theorem verifyLoop_clean (sha : String → String) :
    ∀ (es : List AuditEntry) (p : Option AuditEntry),
    es.Chain' (fun a b => b.data.previousHash = a.hash) →
    (∀ e ∈ es, e.hash = calculateHash sha e.data) →
    (∀ q, p = some q → ∀ b, es.head? = some b →
      b.data.previousHash = q.hash) →
    verifyLoop sha p es = [] := by
  intro es
  induction es with
  | nil => intro p _ _ _; rfl
  | cons b rest ih =>
    intro p hchain hhash hlink
    have hb : b.hash = calculateHash sha b.data := hhash b (by simp)
    have hcheck : checkEntry sha p b = [] := by
      unfold checkEntry
      have h1 : ¬ calculateHash sha b.data ≠ b.hash := by rw [hb]; simp
      rw [if_neg h1]
      rcases p with - | q
      · rfl
      · have h2 : b.data.previousHash = q.hash := hlink q rfl b rfl
        show ([] : List IntegrityError) ++
          (if b.data.previousHash ≠ q.hash then
            [IntegrityError.chainBroken b.id q.id q.hash b.data.previousHash]
          else []) = []
        rw [if_neg (by rw [h2]; simp)]
        rfl
    show checkEntry sha p b ++ verifyLoop sha (some b) rest = []
    rw [hcheck, List.nil_append]
    apply ih (some b)
    · exact (List.chain'_cons'.mp hchain).2
    · intro e he
      exact hhash e (List.mem_cons_of_mem _ he)
    · intro q hq c hc
      cases hq
      exact (List.chain'_cons'.mp hchain).1 c hc

theorem sorted_le_set {es : List AuditEntry} {i : Nat} {e' : AuditEntry}
    (hsort : es.Pairwise (fun a b => a.data.timestamp < b.data.timestamp))
    (hi : i < es.length)
    (hts : e'.data.timestamp = es[i].data.timestamp) :
    List.Sorted (fun a b : AuditEntry => a.data.timestamp ≤ b.data.timestamp)
      (es.set i e') := by
  have hmap : (es.set i e').map (fun e => e.data.timestamp) =
      es.map (fun e => e.data.timestamp) := by
    rw [List.map_set, hts]
    have hge : es[i].data.timestamp =
        (es.map (fun e => e.data.timestamp)).get ⟨i, by simpa using hi⟩ := by
      simp
    rw [hge]
    apply List.ext_getElem
    · simp
    · intro n h1 h2
      by_cases hn : i = n
      · subst hn; simp
      · simp [List.getElem_set, hn]
  have h1 : List.Pairwise (fun a b : Nat => a ≤ b)
      ((es.set i e').map (fun e => e.data.timestamp)) := by
    rw [hmap]
    exact List.pairwise_map.mpr (hsort.imp (fun h => Nat.le_of_lt h))
  exact List.pairwise_map.mp h1

theorem verify_set_decomposition (sha : String → String)
    {es : List AuditEntry} {i : Nat} (hi : i < es.length) (e' : AuditEntry)
    (hsort : es.Pairwise (fun a b => a.data.timestamp < b.data.timestamp))
    (hts : e'.data.timestamp = es[i].data.timestamp) :
    (verifyChainIntegrity sha (es.set i e') none none).errors =
      verifyLoop sha none (es.take i) ++
      (checkEntry sha (lastD none (es.take i)) e' ++
        verifyLoop sha (some e') (es.drop (i + 1))) := by
  have hsorted := sorted_le_set hsort hi hts
  unfold verifyChainIntegrity
  rw [filterRange_none]
  simp only [sortByTimestamp_sorted_eq hsorted]
  show verifyLoop sha none (es.set i e') = _
  rw [List.set_eq_take_cons_drop e' hi, verifyLoop_append]
  rfl

theorem lastD_take_eq {es : List AuditEntry} {i : Nat} (hi : i < es.length)
    (h0 : 0 < i) :
    lastD none (es.take i) = some (es.get ⟨i - 1, by omega⟩) := by
  unfold lastD
  rw [List.getLast?_eq_getElem?, List.length_take,
    Nat.min_eq_left (Nat.le_of_lt hi), List.getElem?_take,
    if_pos (by omega), List.getElem?_eq_getElem (by omega)]
  rfl

theorem verifyLoop_take_clean (sha : String → String)
    {es : List AuditEntry} (i : Nat) (hwf : WellFormedChain sha es) :
    verifyLoop sha none (es.take i) = [] :=
  verifyLoop_clean sha _ none (hwf.1.take i)
    (fun e he => hwf.2.2 e (List.take_subset _ _ he))
    (fun _ hq => Option.noConfusion hq)

theorem verifyLoop_drop_clean (sha : String → String)
    {es : List AuditEntry} {i : Nat} (hwf : WellFormedChain sha es)
    {q : AuditEntry} (hi : i < es.length) (hq : q.hash = es[i].hash) :
    verifyLoop sha (some q) (es.drop (i + 1)) = [] := by
  apply verifyLoop_clean
  · exact hwf.1.drop (i + 1)
  · intro e he
    exact hwf.2.2 e (List.drop_subset _ _ he)
  · intro q' hq' b hb
    cases hq'
    rw [List.head?_drop] at hb
    obtain ⟨hlt, hbe⟩ := List.getElem?_eq_some.mp hb
    have hchain := List.chain'_iff_get.mp hwf.1 i (by omega)
    rw [hq, ← hbe]
    simpa [List.get_eq_getElem] using hchain

theorem checkEntry_eval_some (sha : String → String) (q e : AuditEntry) :
    checkEntry sha (some q) e =
      (if calculateHash sha e.data ≠ e.hash then
        [IntegrityError.hashMismatch e.id e.hash (calculateHash sha e.data)]
      else []) ++
      (if e.data.previousHash ≠ q.hash then
        [IntegrityError.chainBroken e.id q.id q.hash e.data.previousHash]
      else []) := rfl

theorem checkEntry_eval_none (sha : String → String) (e : AuditEntry) :
    checkEntry sha none e =
      (if calculateHash sha e.data ≠ e.hash then
        [IntegrityError.hashMismatch e.id e.hash (calculateHash sha e.data)]
      else []) ++ [] := rfl

/-- C4 (amended). In a well-formed ledger, corrupting exactly one entry's
`previousHash` (entry `i`, `i > 0`) makes `verifyChainIntegrity` report
exactly two errors, both identifying that entry: one ChainBroken, as the
claim says, and additionally one HashMismatch — forced, because
`previousHash` is part of the hash input, so the recomputed content hash
changes as well; no other entry is flagged. Corrupting exactly one entry's
stored `hash` instead yields exactly one HashMismatch for that entry and no
ChainBroken for it, but additionally one ChainBroken for the following entry
when one exists, whose stored `previousHash` no longer matches the corrupted
hash. -/
theorem single_corruption_detection (sha : String → String)
    (es : List AuditEntry) (i : Nat) (v : String)
    (hwf : WellFormedChain sha es) (hi : i < es.length) :
    (0 < i → v ≠ es[i].data.previousHash →
      sha (hashInput (corruptPrevHash es[i] v).data) ≠ es[i].hash →
      (verifyChainIntegrity sha (es.set i (corruptPrevHash es[i] v))
          none none).errors =
        [.hashMismatch es[i].id es[i].hash
            (calculateHash sha (corruptPrevHash es[i] v).data),
          .chainBroken es[i].id (es.get ⟨i - 1, by omega⟩).id
            (es.get ⟨i - 1, by omega⟩).hash v]) ∧
    (v ≠ es[i].hash →
      (verifyChainIntegrity sha (es.set i (corruptHash es[i] v))
          none none).errors =
        .hashMismatch es[i].id v (calculateHash sha es[i].data) ::
          (match es[i + 1]? with
           | some nxt =>
             [.chainBroken nxt.id es[i].id v nxt.data.previousHash]
           | none => [])) := by
  obtain ⟨hchain, hsort, hhash⟩ := hwf
  constructor
  · intro h0 hv hcol
    rw [verify_set_decomposition sha hi (corruptPrevHash es[i] v) hsort rfl,
      verifyLoop_take_clean sha i ⟨hchain, hsort, hhash⟩,
      lastD_take_eq hi h0,
      verifyLoop_drop_clean sha (q := corruptPrevHash es[i] v)
        ⟨hchain, hsort, hhash⟩ hi rfl,
      checkEntry_eval_some]
    have hprev : es[i].data.previousHash = (es.get ⟨i - 1, by omega⟩).hash := by
      obtain ⟨j, rfl⟩ : ∃ j, i = j + 1 := ⟨i - 1, by omega⟩
      have hc := List.chain'_iff_get.mp hchain j (by omega)
      simpa [List.get_eq_getElem, Nat.add_sub_cancel] using hc
    have h1 : calculateHash sha (corruptPrevHash es[i] v).data ≠
        (corruptPrevHash es[i] v).hash := hcol
    have h2 : (corruptPrevHash es[i] v).data.previousHash ≠
        (es.get ⟨i - 1, by omega⟩).hash := by
      show v ≠ (es.get ⟨i - 1, by omega⟩).hash
      rw [← hprev]
      exact hv
    rw [if_pos h1, if_pos h2]
    rfl
  · intro hv
    rw [verify_set_decomposition sha hi (corruptHash es[i] v) hsort rfl,
      verifyLoop_take_clean sha i ⟨hchain, hsort, hhash⟩]
    have hne : calculateHash sha (corruptHash es[i] v).data ≠
        (corruptHash es[i] v).hash := by
      show calculateHash sha es[i].data ≠ v
      rw [← hhash es[i] (List.getElem_mem hi)]
      exact fun hh => hv hh.symm
    have hcheck : checkEntry sha (lastD none (es.take i)) (corruptHash es[i] v) =
        [.hashMismatch es[i].id v (calculateHash sha es[i].data)] := by
      rcases Nat.eq_zero_or_pos i with hz | hpos
      · subst hz
        rw [show lastD none (es.take 0) = none from rfl, checkEntry_eval_none,
          if_pos hne]
        rfl
      · rw [lastD_take_eq hi hpos, checkEntry_eval_some, if_pos hne]
        have hprev : es[i].data.previousHash = (es.get ⟨i - 1, by omega⟩).hash := by
          obtain ⟨j, rfl⟩ : ∃ j, i = j + 1 := ⟨i - 1, by omega⟩
          have hc := List.chain'_iff_get.mp hchain j (by omega)
          simpa [List.get_eq_getElem, Nat.add_sub_cancel] using hc
        have h2 : ¬ (corruptHash es[i] v).data.previousHash ≠
            (es.get ⟨i - 1, by omega⟩).hash := by
          show ¬ es[i].data.previousHash ≠ (es.get ⟨i - 1, by omega⟩).hash
          rw [hprev]
          simp
        rw [if_neg h2]
        rfl
    rcases hnx : es[i + 1]? with - | nxt
    · have hlen : es.length ≤ i + 1 := by
        by_contra hcon
        push_neg at hcon
        rw [List.getElem?_eq_getElem hcon] at hnx
        simp at hnx
      rw [List.drop_eq_nil_of_le hlen, hcheck]
      rfl
    · obtain ⟨hlt, hbe⟩ := List.getElem?_eq_some.mp hnx
      rw [List.drop_eq_getElem_cons hlt, hbe, hcheck]
      show _ ++ (checkEntry sha (some (corruptHash es[i] v)) nxt ++
        verifyLoop sha (some nxt) (es.drop (i + 1 + 1))) = _
      have hrest : verifyLoop sha (some nxt) (es.drop (i + 1 + 1)) = [] :=
        verifyLoop_drop_clean sha ⟨hchain, hsort, hhash⟩ hlt (by rw [hbe])
      have hlink : nxt.data.previousHash = es[i].hash := by
        have hc := List.chain'_iff_get.mp hchain i (by omega)
        rw [← hbe]
        simpa [List.get_eq_getElem] using hc
      have hcheck2 : checkEntry sha (some (corruptHash es[i] v)) nxt =
          [.chainBroken nxt.id es[i].id v nxt.data.previousHash] := by
        have hnhash : ¬ calculateHash sha nxt.data ≠ nxt.hash := by
          rw [← hhash nxt (hbe ▸ List.getElem_mem hlt)]
          simp
        have hbroken : nxt.data.previousHash ≠ (corruptHash es[i] v).hash := by
          show nxt.data.previousHash ≠ v
          rw [hlink]
          exact fun hh => hv hh.symm
        rw [checkEntry_eval_some, if_neg hnhash, if_pos hbroken]
        rfl
      rw [hcheck2, hrest]
      rfl

/-- The state after the alternative-digest call. -/
def state1alt : ServiceState :=
  match run1alt with | .ok (s, _) => s | .error _ => initialState

theorem run1alt_ok : run1alt = .ok (state1alt, entry1alt) := rfl

/-- C5 witness: the amended signature law evaluated on the first concrete
entry, and signature invariance across the two digest functions. -/
theorem signature_over_entry_data_witness :
    entry1.signature =
      hmac0 (auditSecret none) (serializeEntryData entry1.data) ∧
    entry1alt.signature = entry1.signature :=
  ⟨signature_over_entry_data.1 sha0 hmac0 none initialState state1 1 1 false
      params1 entry1 run1_ok,
    signature_over_entry_data.2 shaAlt sha0 hmac0 none initialState state1alt
      state1 1 1 false params1 entry1alt entry1 run1alt_ok run1_ok⟩

/-- `true` iff the error list contains a hash-mismatch error. -/
def hasHashMismatch (errs : List IntegrityError) : Bool :=
  errs.any (fun x => match x with
    | .hashMismatch .. => true
    | .chainBroken .. => false)

/-- C4 counterexample: in the concrete well-formed two-entry ledger,
corrupting only the second entry's `previousHash` makes
`verifyChainIntegrity` report a HashMismatch as well — `previousHash` is
part of the hash input, so the claim's "no HashMismatch error" fails. -/
theorem single_corruption_detection_counterexample :
    hasHashMismatch (verifyChainIntegrity sha0
      (state2.entries.set 1 (corruptPrevHash entry2 "corrupted"))
      none none).errors = true := by decide

/-- The concrete two-entry ledger is well formed. -/
theorem state2_wellformed : WellFormedChain sha0 state2.entries := by
  refine ⟨?_, by decide, by decide⟩
  show List.Chain' _ [entry1, entry2]
  exact List.chain'_cons.mpr ⟨by decide, List.chain'_singleton _⟩

/-- C4 witness: both corruption scenarios evaluated on the concrete
two-entry ledger. -/
theorem single_corruption_detection_witness :
    (verifyChainIntegrity sha0
        (state2.entries.set 1 (corruptPrevHash entry2 "corrupted"))
        none none).errors =
      [.hashMismatch entry2.id entry2.hash
          (calculateHash sha0 (corruptPrevHash entry2 "corrupted").data),
        .chainBroken entry2.id entry1.id entry1.hash "corrupted"] ∧
    (verifyChainIntegrity sha0
        (state2.entries.set 0 (corruptHash entry1 "bad")) none none).errors =
      [.hashMismatch entry1.id "bad" (calculateHash sha0 entry1.data),
        .chainBroken entry2.id entry1.id "bad" entry2.data.previousHash] :=
  ⟨(single_corruption_detection sha0 state2.entries 1 "corrupted"
      state2_wellformed (by decide)).1 (by decide) (by decide) (by decide),
    (single_corruption_detection sha0 state2.entries 0 "bad"
      state2_wellformed (by decide)).2 (by decide)⟩

/-- C6 witness: duplicate-hash and storage-fault propagation and the
success case evaluated on concrete calls. -/
theorem create_entry_propagates_append_errors_witness :
    createAuditEntry cSha hmac0 none cState 5 2 false params1 =
      .error .duplicateHash ∧
    createAuditEntry sha0 hmac0 none initialState 1 1 true params1 =
      .error .storageError ∧
    appendEntry initialState.entries entry1 false = .ok state1.entries :=
  ⟨create_entry_propagates_append_errors.1 cSha hmac0 none cState 5 2 false
      params1 .duplicateHash rfl,
    create_entry_propagates_append_errors.2.1 sha0 hmac0 none initialState 1 1
      params1,
    create_entry_propagates_append_errors.2.2 sha0 hmac0 none initialState
      state1 1 1 false params1 entry1 run1_ok⟩

end AuditLens
